import Mathlib

/-!
Shallow embedding of the goal-progress accrual and periodic-reset engine of
the gps-financeiro repository (source: src/js/utils.js).

Modelling conventions:
* Instants are milliseconds on a DST-free local timeline, as `Int`, with the
  epoch at 1970-01-01 00:00:00.000 local time (a Thursday, JS weekday 4).
  The JS `Date` mutation patterns `setHours(0,0,0,0)` / `setDate(...)` used by
  the source reduce, on this timeline, to integer arithmetic on day numbers.
* JS numbers are modelled by `JNum` (finite value at integer precision —
  every amount the claims concern is integral — plus NaN and the two
  infinities); loosely-typed JS arguments are modelled by `JSVal`.
* The Firestore goal collection of the current user is a `List Goal` in fetch
  order; `serverTimestamp()` is the instant `now` of the call.  Each
  `updateDoc` call of the source is one `WriteOp`; engines return the final
  store together with the sequence of writes performed.
* The fallible variant `runLoopE` models a Firestore write rejecting
  (the source has no try/catch, so in JS the exception propagates out of the
  for-loop); `fails w = true` means the environment makes write `w` reject.
-/

/-- Milliseconds per day, the unit of the local-day truncation of
`setHours(0,0,0,0)`. -/
def msPerDay : Int := 86400000

/-- Local day number containing instant `t` (floor division; `Int` `/` is
Euclidean division, which agrees with floor for the positive divisor). -/
def dayNumber (t : Int) : Int := t / msPerDay

/-- Source `getStartOfDay` (src/js/utils.js): the given day truncated to
local midnight. -/
def getStartOfDay (t : Int) : Int := dayNumber t * msPerDay

/-- JS `Date.prototype.getDay`: weekday with 0 = Sunday .. 6 = Saturday.
The epoch day (1970-01-01) was a Thursday, weekday 4. -/
def getDay (t : Int) : Int := (dayNumber t + 4) % 7

/-- Source `getStartOfWeek` (src/js/utils.js): move back to Monday
(`d.getDate() - day + (day === 0 ? -6 : 1)`, i.e. back 6 days on a Sunday,
back `day - 1` days otherwise) and truncate to midnight. -/
def getStartOfWeek (t : Int) : Int :=
  (dayNumber t - (if getDay t = 0 then 6 else getDay t - 1)) * msPerDay

/-- Gregorian calendar date (year, month 1..12, day 1..31) of a day number,
counting days from 1970-01-01. -/
def civilFromDays (z0 : Int) : Int × Int × Int :=
  let z := z0 + 719468
  let era := z / 146097
  let doe := z - era * 146097
  let yoe := (doe - doe / 1460 + doe / 36524 - doe / 146096) / 365
  let y := yoe + era * 400
  let doy := doe - (365 * yoe + yoe / 4 - yoe / 100)
  let mp := (5 * doy + 2) / 153
  let d := doy - (153 * mp + 2) / 5 + 1
  let m := mp + (if mp < 10 then 3 else -9)
  (if m ≤ 2 then y + 1 else y, m, d)

/-- Day number (days from 1970-01-01) of a Gregorian calendar date. -/
def daysFromCivil (y0 m d : Int) : Int :=
  let y := if m ≤ 2 then y0 - 1 else y0
  let era := y / 400
  let yoe := y - era * 400
  let doy := (153 * (m + (if m > 2 then -3 else 9)) + 2) / 5 + d - 1
  let doe := yoe * 365 + yoe / 4 - yoe / 100 + doy
  era * 146097 + doe - 719468

/-- Source `getStartOfMonth` (src/js/utils.js): `setDate(1)` then midnight,
i.e. the first calendar day of the month containing `t`. -/
def getStartOfMonth (t : Int) : Int :=
  let c := civilFromDays (dayNumber t)
  daysFromCivil c.1 c.2.1 1 * msPerDay

/-- A JS number: a finite value, NaN, or a signed infinity. -/
inductive JNum where
  | fin (q : Int)
  | nan
  | inf
  | ninf
deriving DecidableEq, Repr

/-- JS addition on numbers: NaN is absorbing, opposite infinities give NaN,
an infinity otherwise dominates, finite values add. -/
def JNum.add : JNum → JNum → JNum
  | .nan, _ => .nan
  | _, .nan => .nan
  | .inf, .ninf => .nan
  | .ninf, .inf => .nan
  | .inf, _ => .inf
  | _, .inf => .inf
  | .ninf, _ => .ninf
  | _, .ninf => .ninf
  | .fin a, .fin b => .fin (a + b)

/-- A loosely-typed JS argument as far as the engine inspects it: a number,
a string, or anything else (undefined, null, objects, ...). -/
inductive JSVal where
  | num (n : JNum)
  | str (s : String)
  | undef
deriving DecidableEq, Repr

/-- A goal record as returned by `getGoals` (src/js/utils.js): `category` and
`current` may be absent in the stored document, `lastReset` is always an
instant after the fetch conversion.  `createdAt` only influences fetch order,
which the list order of the store already captures. -/
structure Goal where
  id : Nat
  name : String
  category : Option String
  type : Option String
  target : Int
  current : Option JNum
  lastReset : Int
deriving DecidableEq, Repr

/-- JS `String.prototype.toLowerCase` on the character sequence (ASCII
case mapping, which covers the category tags of this application). -/
def jsToLower (s : String) : String := ⟨s.data.map Char.toLower⟩

/-- JS `String.prototype.trim`: remove leading and trailing whitespace. -/
def jsTrim (s : String) : String :=
  ⟨((s.data.dropWhile Char.isWhitespace).reverse.dropWhile
      Char.isWhitespace).reverse⟩

/-- Category normalization of the source:
`String(x).toLowerCase().trim()`. -/
def normalizeCat (s : String) : String := jsTrim (jsToLower s)

/-- The strict category comparison of the source loop: the goal category
(defaulted with `goal.category || ''`), normalized, equals the already
normalized target. -/
def matchesCat (g : Goal) (target : String) : Bool :=
  normalizeCat (g.category.getD "") == target

/-- Source `checkGoalNeedsReset` (src/js/utils.js): switch on `goal.type`;
the window start of `lastReset` must be strictly earlier than the window
start of `now`; any other `type` gives `false`. -/
def checkGoalNeedsReset (g : Goal) (now : Int) : Bool :=
  if g.type = some "daily" then
    decide (getStartOfDay g.lastReset < getStartOfDay now)
  else if g.type = some "weekly" then
    decide (getStartOfWeek g.lastReset < getStartOfWeek now)
  else if g.type = some "monthly" then
    decide (getStartOfMonth g.lastReset < getStartOfMonth now)
  else false

/-- One `updateDoc` call against a goal document: the reset write
`{current: 0, lastReset: serverTimestamp()}` of `resetGoal`, or the accrual
write `{current: v}` of `updateGoal`. -/
inductive WriteOp where
  | reset (gid : Nat) (t : Int)
  | setCurrent (gid : Nat) (v : JNum)
deriving DecidableEq, Repr

/-- The goal document a write is addressed to. -/
def WriteOp.gid : WriteOp → Nat
  | .reset g _ => g
  | .setCurrent g _ => g

/-- Field effect of a write on the goal document it addresses. -/
def writeFields (w : WriteOp) (e : Goal) : Goal :=
  match w with
  | .reset _ t => { e with current := some (.fin 0), lastReset := t }
  | .setCurrent _ v => { e with current := some v }

/-- Effect of one write on the store: the documents whose id matches receive
the written fields (ids are unique in a real store; `List.map` expresses the
single-document update). -/
def applyOp (st : List Goal) (w : WriteOp) : List Goal :=
  st.map fun e => if e.id = w.gid then writeFields w e else e

/-- Effect of a sequence of writes on the store. -/
def applyOps (st : List Goal) (ws : List WriteOp) : List Goal :=
  ws.foldl applyOp st

/-- The JS `x || 0` defaulting applied to `goal.current`: absent, NaN and 0
become the number 0, anything else is kept. -/
def orZero : Option JNum → JNum
  | none => .fin 0
  | some .nan => .fin 0
  | some (.fin q) => .fin q
  | some .inf => .inf
  | some .ninf => .ninf

/-- The writes the `updateGoalsProgress` loop body issues for one snapshot
goal: nothing if the category does not match; otherwise the reset write when
a reset is due, then the accrual write with
`(shouldReset ? 0 : (goal.current || 0)) + amount`, both values taken from
the snapshot record. -/
def accrualWrites (now : Int) (amount : JNum) (target : String) (g : Goal) :
    List WriteOp :=
  if ¬ matchesCat g target then []
  else
    (if checkGoalNeedsReset g now then [WriteOp.reset g.id now] else []) ++
      [WriteOp.setCurrent g.id
        ((if checkGoalNeedsReset g now then JNum.fin 0 else orZero g.current).add
          amount)]

/-- The write the `checkAndResetGoals` loop body issues for one snapshot
goal: the reset write exactly when a reset is due. -/
def sweepWrites (now : Int) (g : Goal) : List WriteOp :=
  if checkGoalNeedsReset g now then [WriteOp.reset g.id now] else []

/-- The for-loop shared by `updateGoalsProgress` and `checkAndResetGoals`:
iterate over the fetched snapshot, apply the writes of each snapshot goal to
the store, and record them. -/
def runLoop (act : Goal → List WriteOp) :
    List Goal → List Goal → List WriteOp → List Goal × List WriteOp
  | [], st, log => (st, log)
  | g :: rest, st, log => runLoop act rest (applyOps st (act g)) (log ++ act g)

/-- The category validation of `updateGoalsProgress`:
`!category || typeof category !== 'string'` rejects everything except a
nonempty string. -/
def validCategory : JSVal → Bool
  | .str s => s != ""
  | _ => false

/-- The amount validation of `updateGoalsProgress`:
`typeof amount !== 'number' || amount <= 0 || isNaN(amount)` rejects
non-numbers, NaN and every value `<= 0` (hence also -Infinity), and accepts
every positive finite value and +Infinity. -/
def validAmount : JSVal → Bool
  | .num n =>
    match n with
    | .nan => false
    | .inf => true
    | .ninf => false
    | .fin q => decide (0 < q)
  | _ => false

/-- Numeric payload of a validated amount argument. -/
def amountNum : JSVal → JNum
  | .num n => n
  | _ => .nan

/-- String payload of a validated category argument. -/
def categoryStr : JSVal → String
  | .str s => s
  | _ => ""

/-- Source `updateGoalsProgress` (src/js/utils.js): validate the category,
then the amount, returning with no store interaction on failure; otherwise
fetch the goals and run the accrual loop over the snapshot. -/
def updateGoalsProgress (now : Int) (amount category : JSVal)
    (store : List Goal) : List Goal × List WriteOp :=
  if ¬ validCategory category then (store, [])
  else if ¬ validAmount amount then (store, [])
  else
    runLoop (accrualWrites now (amountNum amount)
      (normalizeCat (categoryStr category))) store store []

/-- Source `checkAndResetGoals` (src/js/utils.js): fetch the goals and issue
the reset write for every snapshot goal for which a reset is due. -/
def checkAndResetGoals (now : Int) (store : List Goal) :
    List Goal × List WriteOp :=
  runLoop (sweepWrites now) store store []

/-- Source `addGoal` (src/js/utils.js): the stored document is the input
record with `current` forced to 0 and `lastReset` set to the server time;
the store assigns the id and appends in fetch order. -/
def addGoal (now : Int) (gid : Nat) (goal : Goal) (store : List Goal) :
    List Goal :=
  store ++ [{ goal with id := gid, current := some (.fin 0), lastReset := now }]

/-- Source `resetGoal` (src/js/utils.js) as a standalone operation: one
`updateDoc` with `{current: 0, lastReset: serverTimestamp()}`. -/
def resetGoal (now : Int) (gid : Nat) (store : List Goal) : List Goal :=
  applyOp store (.reset gid now)

/-- Fallible write sequence: the source has no try/catch, so the first
rejected `updateDoc` aborts with the store and log as they stand. -/
def runWritesE (fails : WriteOp → Bool) :
    List WriteOp → List Goal → List WriteOp →
    Except (List Goal × List WriteOp) (List Goal × List WriteOp)
  | [], st, log => .ok (st, log)
  | w :: ws, st, log =>
    if fails w then .error (st, log)
    else runWritesE fails ws (applyOp st w) (log ++ [w])

/-- The accrual for-loop under fallible writes: an exception from any write
propagates out of the loop (JS `await` in a for-loop with no try/catch). -/
def runLoopE (act : Goal → List WriteOp) (fails : WriteOp → Bool) :
    List Goal → List Goal → List WriteOp →
    Except (List Goal × List WriteOp) (List Goal × List WriteOp)
  | [], st, log => .ok (st, log)
  | g :: rest, st, log =>
    match runWritesE fails (act g) st log with
    | .error r => .error r
    | .ok (st1, log1) => runLoopE act fails rest st1 log1

/-- Source `updateGoalsProgress` under an environment in which some writes
reject: validation as in `updateGoalsProgress`, then the fallible loop. -/
def updateGoalsProgressE (now : Int) (amount category : JSVal)
    (fails : WriteOp → Bool) (store : List Goal) :
    Except (List Goal × List WriteOp) (List Goal × List WriteOp) :=
  if ¬ validCategory category then .ok (store, [])
  else if ¬ validAmount amount then .ok (store, [])
  else
    runLoopE (accrualWrites now (amountNum amount)
      (normalizeCat (categoryStr category))) fails store store []

/-- Per-entry effect of a write sequence on one goal document. -/
def entryApply (ws : List WriteOp) (e : Goal) : Goal :=
  ws.foldl (fun x w => if x.id = w.gid then writeFields w x else x) e

/-- Net effect of one engine pass on one store entry: the writes of the
first snapshot goal carrying the same document id. -/
def loopView (act : Goal → List WriteOp) (snapshot : List Goal) (e : Goal) :
    Goal :=
  match snapshot.find? (fun g => g.id == e.id) with
  | some g => entryApply (act g) e
  | none => e

/-- Spec-side characterization, following the words of claim C3, of a
category argument the validation must reject: empty or not a string at
all. -/
def specBadCategory (c : JSVal) : Prop := ∀ s, c = JSVal.str s → s = ""

/-- Spec-side characterization, following the words of claim C3 as amended,
of an amount argument the validation rejects: NaN, negative infinity, a
non-positive finite number, or not a number at all.  Positive infinity is
deliberately NOT in this set: the source checks `isNaN` and `<= 0` but not
finiteness. -/
def specBadAmount (a : JSVal) : Prop :=
  ∀ n, a = JSVal.num n →
    n = JNum.nan ∨ n = JNum.ninf ∨ ∃ q, n = JNum.fin q ∧ q ≤ 0

/-- A JS number satisfying the nonnegativity side of the claim C9
invariant: a nonnegative finite value or +Infinity (NaN and -Infinity do
not satisfy `>= 0` in JS). -/
def JNum.nonneg : JNum → Prop
  | .fin q => 0 ≤ q
  | .nan => False
  | .inf => True
  | .ninf => False

/-- Claim C9 invariant for one goal: a present `current` is nonnegative. -/
def currentNonneg (g : Goal) : Prop :=
  ∀ v, g.current = some v → JNum.nonneg v

/-- Claim C9 invariant for the store. -/
def storeInv (store : List Goal) : Prop := ∀ g ∈ store, currentNonneg g

/-- No stored reset instant lies in the future of the call instant. -/
def clockLe (store : List Goal) (now : Int) : Prop :=
  ∀ g ∈ store, g.lastReset ≤ now

/-- Positionwise monotonicity of `lastReset` between two stores. -/
def lastResetMono (a b : List Goal) : Prop :=
  ∀ (i : Nat) (g g' : Goal), a[i]? = some g → b[i]? = some g' →
    g.lastReset ≤ g'.lastReset

/-- A write compatible with the claim C9 invariants: a reset stamped with
the call instant, or an accrual write of a nonnegative value. -/
def opOK (now : Int) : WriteOp → Prop
  | .reset _ t => t = now
  | .setCurrent _ v => JNum.nonneg v

/-- A write changes fields of a document, never its id. -/
theorem writeFields_preserves_id (w : WriteOp) (e : Goal) :
    (writeFields w e).id = e.id := by
  cases w <;> rfl

/-- A write sequence never changes the id of an entry. -/
theorem entryApply_preserves_id (ws : List WriteOp) (e : Goal) :
    (entryApply ws e).id = e.id := by
  induction ws generalizing e with
  | nil => rfl
  | cons w ws ih =>
    show (entryApply ws (if e.id = w.gid then writeFields w e else e)).id = e.id
    rw [ih]
    split
    · exact writeFields_preserves_id w e
    · rfl

/-- Writes addressed to other documents leave an entry untouched. -/
theorem entryApply_of_ne (ws : List WriteOp) (e : Goal)
    (h : ∀ w ∈ ws, w.gid ≠ e.id) : entryApply ws e = e := by
  induction ws with
  | nil => rfl
  | cons w ws ih =>
    show entryApply ws (if e.id = w.gid then writeFields w e else e) = e
    have h1 : ¬ (e.id = w.gid) := fun hh => h w (List.mem_cons_self w ws) hh.symm
    rw [if_neg h1]
    exact ih fun w' hw => h w' (List.mem_cons_of_mem _ hw)

/-- Applying a write sequence to the store acts entrywise. -/
theorem applyOps_eq (ws : List WriteOp) (st : List Goal) :
    applyOps st ws = st.map (entryApply ws) := by
  induction ws generalizing st with
  | nil =>
    show st = st.map (entryApply [])
    rw [show entryApply [] = fun e => e from rfl, List.map_id']
  | cons w ws ih =>
    show applyOps (applyOp st w) ws = _
    rw [ih, applyOp, List.map_map]
    rfl

/-- Every write the accrual loop body issues for a snapshot goal is
addressed to that goal. -/
theorem accrualWrites_gid (now : Int) (a : JNum) (target : String)
    (g : Goal) (w : WriteOp) (hw : w ∈ accrualWrites now a target g) :
    w.gid = g.id := by
  rw [accrualWrites] at hw
  split at hw
  · cases hw
  · rcases List.mem_append.mp hw with h | h
    · split at h
      · rcases List.mem_singleton.mp h with rfl
        rfl
      · cases h
    · rcases List.mem_singleton.mp h with rfl
      rfl

/-- Every write the sweep loop body issues for a snapshot goal is addressed
to that goal. -/
theorem sweepWrites_gid (now : Int) (g : Goal) (w : WriteOp)
    (hw : w ∈ sweepWrites now g) : w.gid = g.id := by
  rw [sweepWrites] at hw
  split at hw
  · rcases List.mem_singleton.mp hw with rfl
    rfl
  · cases hw

/-- One loop step commutes with the per-entry view of the remaining steps
when the snapshot ids are unambiguous. -/
theorem loopView_cons (act : Goal → List WriteOp)
    (hact : ∀ g w, w ∈ act g → w.gid = g.id) (g : Goal) (rest : List Goal)
    (hg : g.id ∉ rest.map Goal.id) (e : Goal) :
    loopView act rest (entryApply (act g) e) = loopView act (g :: rest) e := by
  by_cases hid : g.id = e.id
  · have hfind : (g :: rest).find? (fun x => x.id == e.id) = some g :=
      List.find?_cons_of_pos _ (by simp [hid])
    have hnone :
        rest.find? (fun x => x.id == (entryApply (act g) e).id) = none := by
      apply List.find?_eq_none.mpr
      intro x hx
      simp only [entryApply_preserves_id, beq_iff_eq]
      intro hxe
      exact hg (List.mem_map.mpr ⟨x, hx, hxe.trans hid.symm⟩)
    simp only [loopView, hnone, hfind]
  · have h1 : entryApply (act g) e = e := by
      apply entryApply_of_ne
      intro w hw
      rw [hact g w hw]
      exact hid
    have hfind : (g :: rest).find? (fun x => x.id == e.id) =
        rest.find? (fun x => x.id == e.id) :=
      List.find?_cons_of_neg _ (by simp [hid])
    simp only [h1, loopView, hfind]

/-- Master description of the engine for-loop: with unambiguous snapshot
ids, the final store is the entrywise application of the per-id writes, and
the log collects the writes of every snapshot goal in order. -/
theorem runLoop_eq (act : Goal → List WriteOp)
    (hact : ∀ g w, w ∈ act g → w.gid = g.id) :
    ∀ (snapshot st : List Goal) (log : List WriteOp),
      (snapshot.map Goal.id).Nodup →
      runLoop act snapshot st log =
        (st.map (loopView act snapshot), log ++ snapshot.flatMap act) := by
  intro snapshot
  induction snapshot with
  | nil =>
    intro st log _
    show (st, log) = _
    rw [show loopView act [] = fun e => e from rfl, List.map_id']
    simp [List.flatMap]
  | cons g rest ih =>
    intro st log hnodup
    rw [List.map_cons, List.nodup_cons] at hnodup
    show runLoop act rest (applyOps st (act g)) (log ++ act g) = _
    rw [ih _ _ hnodup.2, applyOps_eq, List.map_map]
    refine Prod.ext ?_ ?_
    · show st.map (loopView act rest ∘ entryApply (act g)) = _
      congr 1
      funext e
      exact loopView_cons act hact g rest hnodup.1 e
    · show log ++ act g ++ rest.flatMap act = _
      rw [List.flatMap_cons, List.append_assoc]

/-- In a store with unambiguous ids, the first entry with the id of a member
is that member. -/
theorem find?_id_self :
    ∀ {store : List Goal}, (store.map Goal.id).Nodup →
      ∀ {g : Goal}, g ∈ store →
        store.find? (fun x => x.id == g.id) = some g := by
  intro store
  induction store with
  | nil =>
    intro _ g hg
    cases hg
  | cons h rest ih =>
    intro hnodup g hg
    rw [List.map_cons, List.nodup_cons] at hnodup
    by_cases hid : h.id = g.id
    · have heq : h = g := by
        rcases List.mem_cons.mp hg with rfl | hgr
        · rfl
        · exact absurd (by rw [hid]; exact List.mem_map_of_mem Goal.id hgr)
            hnodup.1
      rw [List.find?_cons_of_pos _ (by simp [hid]), heq]
    · have hgr : g ∈ rest := by
        rcases List.mem_cons.mp hg with rfl | hgr
        · exact absurd rfl hid
        · exact hgr
      rw [List.find?_cons_of_neg _ (by simp [hid])]
      exact ih hnodup.2 hgr

/-- Validation accepts every nonempty string category. -/
theorem validCategory_str {c : String} (hc : c ≠ "") :
    validCategory (.str c) = true := by
  simp [validCategory, hc]

/-- Validation accepts every positive finite amount. -/
theorem validAmount_fin {q : Int} (hq : 0 < q) :
    validAmount (.num (.fin q)) = true := by
  simp [validAmount, hq]

/-- The accrual engine on valid inputs and a store with unambiguous ids,
described entrywise together with its write log. -/
theorem updateGoalsProgress_eq {now q : Int} {c : String} {store : List Goal}
    (hq : 0 < q) (hc : c ≠ "") (hnodup : (store.map Goal.id).Nodup) :
    updateGoalsProgress now (.num (.fin q)) (.str c) store =
      (store.map (loopView (accrualWrites now (.fin q) (normalizeCat c)) store),
       store.flatMap (accrualWrites now (.fin q) (normalizeCat c))) := by
  rw [updateGoalsProgress, if_neg (by simp [validCategory_str hc]),
    if_neg (by simp [validAmount_fin hq]),
    runLoop_eq _ (accrualWrites_gid now _ _) store store [] hnodup,
    List.nil_append]
  rfl

/-- The sweep on a store with unambiguous ids, described entrywise together
with its write log. -/
theorem checkAndResetGoals_eq {now : Int} {store : List Goal}
    (hnodup : (store.map Goal.id).Nodup) :
    checkAndResetGoals now store =
      (store.map (loopView (sweepWrites now) store),
       store.flatMap (sweepWrites now)) := by
  rw [checkAndResetGoals,
    runLoop_eq _ (sweepWrites_gid now) store store [] hnodup,
    List.nil_append]

/-- Claim C1: for every goal whose normalized category matches the call
category, `applyEarnings(amount, category)` with valid inputs leaves the
goal with `current` exactly the amount and `lastReset` the call time when a
reset was due, and with `current` the old value plus the amount and
`lastReset` unchanged when no reset was due. -/
theorem claim_C1 (now q : Int) (c : String) (store : List Goal) (i : Nat)
    (g : Goal) (p : Int) (hq : 0 < q) (hc : c ≠ "")
    (hnodup : (store.map Goal.id).Nodup) (hg : store[i]? = some g)
    (hmatch : matchesCat g (normalizeCat c) = true)
    (hcur : g.current = some (.fin p)) :
    (updateGoalsProgress now (.num (.fin q)) (.str c) store).1[i]? =
      some { g with
        current := some (.fin (if checkGoalNeedsReset g now then q else p + q)),
        lastReset := if checkGoalNeedsReset g now then now else g.lastReset } := by
  rw [updateGoalsProgress_eq hq hc hnodup]
  dsimp only
  rw [List.getElem?_map, hg, Option.map_some']
  congr 1
  rw [loopView, find?_id_self hnodup (List.getElem?_mem hg)]
  by_cases hr : checkGoalNeedsReset g now
  · simp [accrualWrites, hmatch, hr, entryApply, writeFields, WriteOp.gid,
      JNum.add, hcur]
  · simp [accrualWrites, hmatch, hr, entryApply, writeFields, WriteOp.gid,
      JNum.add, orZero, hcur]

/-- Witness for claim C1, covering both branches: a daily goal at 50 with
`lastReset` on the epoch day is reset-then-credited one day later, and a
second identical goal with `lastReset` on the same day is only credited. -/
theorem claim_C1_witness :
    (updateGoalsProgress 86400000 (.num (.fin 20)) (.str "receita")
        [⟨1, "m", some "Receita ", some "daily", 100, some (.fin 50), 0⟩]).1[0]? =
      some ⟨1, "m", some "Receita ", some "daily", 100, some (.fin 20),
        86400000⟩ ∧
    (updateGoalsProgress 86400000 (.num (.fin 20)) (.str "receita")
        [⟨1, "m", some "Receita ", some "daily", 100, some (.fin 50),
          86400000⟩]).1[0]? =
      some ⟨1, "m", some "Receita ", some "daily", 100, some (.fin 70),
        86400000⟩ := by
  constructor
  · have h := claim_C1 86400000 20 "receita"
      [⟨1, "m", some "Receita ", some "daily", 100, some (.fin 50), 0⟩] 0
      ⟨1, "m", some "Receita ", some "daily", 100, some (.fin 50), 0⟩ 50
      (by decide) (by decide) (by decide) (by decide) (by decide) (by decide)
    rw [h]
    decide
  · have h := claim_C1 86400000 20 "receita"
      [⟨1, "m", some "Receita ", some "daily", 100, some (.fin 50), 86400000⟩]
      0 ⟨1, "m", some "Receita ", some "daily", 100, some (.fin 50), 86400000⟩
      50 (by decide) (by decide) (by decide) (by decide) (by decide)
      (by decide)
    rw [h]
    decide

/-- Two members of a store with unambiguous ids sharing an id are the same
record. -/
theorem id_inj {store : List Goal} (hnodup : (store.map Goal.id).Nodup)
    {g g' : Goal} (hg : g ∈ store) (hg' : g' ∈ store)
    (hid : g'.id = g.id) : g' = g := by
  have h1 := find?_id_self hnodup hg
  have h2 := find?_id_self hnodup hg'
  rw [hid, h1] at h2
  exact (Option.some.inj h2).symm

/-- A nonempty write list of the accrual loop body means the goal matched. -/
theorem accrualWrites_matches {now : Int} {a : JNum} {target : String}
    {g : Goal} {w : WriteOp} (hw : w ∈ accrualWrites now a target g) :
    matchesCat g target = true := by
  rcases hbm : matchesCat g target with _ | _
  · rw [accrualWrites, if_pos (by simp [hbm])] at hw
    cases hw
  · rfl

/-- Claim C10: a matching goal whose `current` field is absent or otherwise
falsy (missing, NaN, or 0) is treated as prior value 0 when no reset is due:
`current` becomes exactly the accrued amount, a plain number. -/
theorem claim_C10 (now q : Int) (c : String) (store : List Goal) (i : Nat)
    (g : Goal) (hq : 0 < q) (hc : c ≠ "")
    (hnodup : (store.map Goal.id).Nodup) (hg : store[i]? = some g)
    (hmatch : matchesCat g (normalizeCat c) = true)
    (hnoreset : checkGoalNeedsReset g now = false)
    (hfalsy : g.current = none ∨ g.current = some .nan ∨
      g.current = some (.fin 0)) :
    (updateGoalsProgress now (.num (.fin q)) (.str c) store).1[i]? =
      some { g with current := some (.fin q) } := by
  rw [updateGoalsProgress_eq hq hc hnodup]
  dsimp only
  rw [List.getElem?_map, hg, Option.map_some']
  congr 1
  rw [loopView, find?_id_self hnodup (List.getElem?_mem hg)]
  rcases hfalsy with h | h | h <;>
    simp [accrualWrites, hmatch, hnoreset, entryApply, writeFields,
      WriteOp.gid, JNum.add, orZero, h]

/-- Witness for claim C10: a matching daily goal with no `current` field and
no reset due ends at exactly the accrued amount. -/
theorem claim_C10_witness :
    (updateGoalsProgress 3600000 (.num (.fin 20)) (.str "receita")
        [⟨1, "m", some "receita", some "daily", 100, none, 0⟩]).1[0]? =
      some ⟨1, "m", some "receita", some "daily", 100, some (.fin 20), 0⟩ := by
  have h := claim_C10 3600000 20 "receita"
    [⟨1, "m", some "receita", some "daily", 100, none, 0⟩] 0
    ⟨1, "m", some "receita", some "daily", 100, none, 0⟩
    (by decide) (by decide) (by decide) (by decide) (by decide) (by decide)
    (Or.inl rfl)
  rw [h]

/-- Claim C5: a goal whose normalized category differs from the call
category keeps every field unchanged and no write of the call is addressed
to its document. -/
theorem claim_C5 (now q : Int) (c : String) (store : List Goal) (i : Nat)
    (g : Goal) (hq : 0 < q) (hc : c ≠ "")
    (hnodup : (store.map Goal.id).Nodup) (hg : store[i]? = some g)
    (hmatch : matchesCat g (normalizeCat c) = false) :
    (updateGoalsProgress now (.num (.fin q)) (.str c) store).1[i]? = some g ∧
      ∀ w ∈ (updateGoalsProgress now (.num (.fin q)) (.str c) store).2,
        w.gid ≠ g.id := by
  rw [updateGoalsProgress_eq hq hc hnodup]
  dsimp only
  constructor
  · rw [List.getElem?_map, hg, Option.map_some']
    congr 1
    rw [loopView, find?_id_self hnodup (List.getElem?_mem hg)]
    simp [accrualWrites, hmatch, entryApply]
  · intro w hw hcontra
    rw [List.mem_flatMap] at hw
    rcases hw with ⟨g', hg', hwg'⟩
    have hg'm := accrualWrites_matches hwg'
    have hid : g'.id = g.id :=
      (accrualWrites_gid now _ _ g' w hwg').symm.trans hcontra
    have heq := id_inj hnodup (List.getElem?_mem hg) hg' hid
    rw [heq, hmatch] at hg'm
    cases hg'm

/-- Witness for claim C5: a goal in the category economia is untouched by a
receita accrual. -/
theorem claim_C5_witness :
    (updateGoalsProgress 0 (.num (.fin 20)) (.str "receita")
        [⟨1, "m", some "economia", some "daily", 100, some (.fin 50), 0⟩]).1[0]?
      = some ⟨1, "m", some "economia", some "daily", 100, some (.fin 50), 0⟩ ∧
    ∀ w ∈ (updateGoalsProgress 0 (.num (.fin 20)) (.str "receita")
        [⟨1, "m", some "economia", some "daily", 100, some (.fin 50), 0⟩]).2,
      w.gid ≠ 1 := by
  exact claim_C5 0 20 "receita"
    [⟨1, "m", some "economia", some "daily", 100, some (.fin 50), 0⟩] 0
    ⟨1, "m", some "economia", some "daily", 100, some (.fin 50), 0⟩
    (by decide) (by decide) (by decide) (by decide) (by decide)

/-- Claim C4: a goal is credited by the call — some write is addressed to
its document — if and only if its normalized category is exactly equal to
the normalized call category. -/
theorem claim_C4 (now q : Int) (c : String) (store : List Goal) (g : Goal)
    (hq : 0 < q) (hc : c ≠ "") (hnodup : (store.map Goal.id).Nodup)
    (hg : g ∈ store) :
    (∃ w ∈ (updateGoalsProgress now (.num (.fin q)) (.str c) store).2,
        w.gid = g.id) ↔
      normalizeCat (g.category.getD "") = normalizeCat c := by
  rw [updateGoalsProgress_eq hq hc hnodup]
  dsimp only
  constructor
  · rintro ⟨w, hw, hwg⟩
    rw [List.mem_flatMap] at hw
    rcases hw with ⟨g', hg', hwg'⟩
    have hg'm := accrualWrites_matches hwg'
    have hid : g'.id = g.id :=
      (accrualWrites_gid now _ _ g' w hwg').symm.trans hwg
    rw [id_inj hnodup hg hg' hid, matchesCat, beq_iff_eq] at hg'm
    exact hg'm
  · intro hm
    refine ⟨WriteOp.setCurrent g.id
      ((if checkGoalNeedsReset g now then JNum.fin 0
        else orZero g.current).add (.fin q)), ?_, rfl⟩
    rw [List.mem_flatMap]
    refine ⟨g, hg, ?_⟩
    rw [accrualWrites, if_neg (by simp [matchesCat, hm])]
    by_cases hr : checkGoalNeedsReset g now <;> simp [hr]

/-- Witness for claim C4: a goal with category Receita followed by a space
is credited by a call with category receita. -/
theorem claim_C4_witness :
    (∃ w ∈ (updateGoalsProgress 0 (.num (.fin 20)) (.str "receita")
        [⟨1, "m", some "Receita ", some "daily", 100, some (.fin 50), 0⟩]).2,
      w.gid = 1) ↔
    normalizeCat "Receita " = normalizeCat "receita" := by
  exact claim_C4 0 20 "receita"
    [⟨1, "m", some "Receita ", some "daily", 100, some (.fin 50), 0⟩]
    ⟨1, "m", some "Receita ", some "daily", 100, some (.fin 50), 0⟩
    (by decide) (by decide) (by decide) (by decide)

/-- Claim C2: a reset is due exactly when the window start (day, week or
month, selected by the goal type) of `lastReset` is strictly earlier than
the window start of the current instant; an unknown or missing type never
makes the check true. -/
theorem claim_C2 (g : Goal) (now : Int) :
    checkGoalNeedsReset g now = true ↔
      ((g.type = some "daily" ∧
          getStartOfDay g.lastReset < getStartOfDay now) ∨
        (g.type = some "weekly" ∧
          getStartOfWeek g.lastReset < getStartOfWeek now) ∨
        (g.type = some "monthly" ∧
          getStartOfMonth g.lastReset < getStartOfMonth now)) := by
  rw [checkGoalNeedsReset]
  split_ifs with h1 h2 h3 <;> simp_all

/-- Claim C8: `startOfWeek` is the Monday midnight of the week containing
`t`: 6 days before the day start on a Sunday, the day start itself on a
Monday, `weekday - 1` days before it otherwise; the result is a
midnight-aligned Monday, at or before `t` and less than 7 days back. -/
theorem claim_C8 (t : Int) :
    getStartOfWeek t =
        getStartOfDay t -
          (if getDay t = 0 then 6 else getDay t - 1) * msPerDay
      ∧ getDay (getStartOfWeek t) = 1
      ∧ getStartOfWeek t % msPerDay = 0
      ∧ getStartOfWeek t ≤ t
      ∧ t - getStartOfWeek t < 7 * msPerDay := by
  simp only [getStartOfWeek, getStartOfDay, getDay, dayNumber, msPerDay]
  split_ifs with h <;> omega

/-- Counterexample to claim C3 as stated: the amount +Infinity is not a
finite positive number, yet the call passes validation, performs a write
against the matching goal and leaves it with `current = Infinity`. -/
theorem claim_C3_counterexample :
    updateGoalsProgress 0 (.num .inf) (.str "receita")
        [⟨1, "m", some "receita", some "daily", 100, some (.fin 50), 0⟩] =
      ([⟨1, "m", some "receita", some "daily", 100, some .inf, 0⟩],
        [WriteOp.setCurrent 1 .inf]) := by
  decide

/-- Claim C3 as amended: for every category that is empty or not a string,
and for every amount that is NaN, negative infinity, a non-positive number,
or not a number at all — every invalid amount of the original claim except
positive infinity, which the source accepts — the call fails validation
with no store write and every goal left unchanged. -/
theorem claim_C3_amended (now : Int) (amount category : JSVal)
    (store : List Goal)
    (hbad : specBadCategory category ∨ specBadAmount amount) :
    updateGoalsProgress now amount category store = (store, []) := by
  rcases hbad with hb | hb
  · have hv : validCategory category = false := by
      cases category with
      | str s => simp [validCategory, hb s rfl]
      | num n => rfl
      | undef => rfl
    rw [updateGoalsProgress, if_pos (by simp [hv])]
  · have hv : validAmount amount = false := by
      cases amount with
      | num n =>
        rcases hb n rfl with h | h | ⟨q, rfl, hq⟩
        · rw [h]; rfl
        · rw [h]; rfl
        · simp only [validAmount, decide_eq_false_iff_not]
          omega
      | str s => rfl
      | undef => rfl
    by_cases hc : validCategory category = true
    · rw [updateGoalsProgress, if_neg (by simp [hc]), if_pos (by simp [hv])]
    · rw [updateGoalsProgress, if_pos hc]

/-- Witness for amended claim C3: a NaN amount with a valid category is a
no-op with zero writes. -/
theorem claim_C3_witness :
    updateGoalsProgress 0 (.num .nan) (.str "receita")
      [⟨1, "m", some "receita", some "daily", 100, some (.fin 50), 0⟩] =
    ([⟨1, "m", some "receita", some "daily", 100, some (.fin 50), 0⟩], []) :=
  claim_C3_amended 0 (.num .nan) (.str "receita") _
    (Or.inr fun n h => by
      injection h with h1
      exact Or.inl h1.symm)

/-- The write log of the engine for-loop does not depend on the evolving
store: it is the concatenation of the per-snapshot-goal writes. -/
theorem runLoop_log (act : Goal → List WriteOp) :
    ∀ (snapshot st : List Goal) (log : List WriteOp),
      (runLoop act snapshot st log).2 = log ++ snapshot.flatMap act := by
  intro snapshot
  induction snapshot with
  | nil =>
    intro st log
    simp [runLoop, List.flatMap]
  | cons g rest ih =>
    intro st log
    show (runLoop act rest _ (log ++ act g)).2 = _
    rw [ih, List.flatMap_cons, List.append_assoc]

/-- The sweep writes of a snapshot are one reset per due goal, in order. -/
theorem flatMap_sweepWrites (now : Int) :
    ∀ store : List Goal,
      store.flatMap (sweepWrites now) =
        (store.filter (fun g => checkGoalNeedsReset g now)).map
          (fun g => WriteOp.reset g.id now) := by
  intro store
  induction store with
  | nil => rfl
  | cons g rest ih =>
    rw [List.flatMap_cons, ih, sweepWrites]
    by_cases h : checkGoalNeedsReset g now
    · rw [if_pos h, List.filter_cons_of_pos (by simp [h]), List.map_cons]
      rfl
    · rw [if_neg h, List.filter_cons_of_neg (by simp [h]), List.nil_append]

/-- The reset write leaves a goal that is checked again at the very same
instant not due: its window start is no longer strictly earlier than
itself. -/
theorem check_after_reset (e : Goal) (now : Int) :
    checkGoalNeedsReset { e with current := some (.fin 0), lastReset := now }
      now = false := by
  rw [checkGoalNeedsReset]
  split_ifs <;> simp

/-- Claim C7: one sweep performs the reset write exactly for the goals that
were due, and a second sweep at the same instant finds nothing due and
performs no write. -/
theorem claim_C7 (now : Int) (store : List Goal)
    (hnodup : (store.map Goal.id).Nodup) :
    (checkAndResetGoals now store).2 =
        (store.filter (fun g => checkGoalNeedsReset g now)).map
          (fun g => WriteOp.reset g.id now) ∧
      (checkAndResetGoals now (checkAndResetGoals now store).1).2 = [] := by
  have hdue : ∀ g' ∈ (checkAndResetGoals now store).1,
      checkGoalNeedsReset g' now = false := by
    rw [checkAndResetGoals_eq hnodup]
    dsimp only
    intro g' hgm
    rw [List.mem_map] at hgm
    rcases hgm with ⟨e, he, rfl⟩
    have hv : loopView (sweepWrites now) store e =
        entryApply (sweepWrites now e) e := by
      rw [loopView, find?_id_self hnodup he]
    rw [hv]
    by_cases h : checkGoalNeedsReset e now
    · rw [sweepWrites, if_pos h]
      show checkGoalNeedsReset
        (if e.id = (WriteOp.reset e.id now).gid
          then writeFields (WriteOp.reset e.id now) e else e) now = false
      have hgid : e.id = (WriteOp.reset e.id now).gid := rfl
      rw [if_pos hgid]
      exact check_after_reset e now
    · rw [sweepWrites, if_neg h]
      show checkGoalNeedsReset e now = false
      rw [Bool.not_eq_true] at h
      exact h
  refine ⟨?_, ?_⟩
  · rw [checkAndResetGoals, runLoop_log, List.nil_append, flatMap_sweepWrites]
  · rw [checkAndResetGoals, runLoop_log, List.nil_append,
      List.flatMap_eq_nil_iff]
    intro g' hg'
    rw [sweepWrites, if_neg (by simp [hdue g' hg'])]

/-- Witness for claim C7: of two goals, only the due daily goal receives a
reset write, and a second sweep in immediate succession writes nothing. -/
theorem claim_C7_witness :
    (checkAndResetGoals 86400000
        [⟨1, "m", some "receita", some "daily", 100, some (.fin 50), 0⟩,
         ⟨2, "n", some "receita", none, 100, some (.fin 50), 0⟩]).2 =
      ([⟨1, "m", some "receita", some "daily", 100, some (.fin 50), 0⟩,
        ⟨2, "n", some "receita", none, 100, some (.fin 50), 0⟩].filter
          (fun g => checkGoalNeedsReset g 86400000)).map
        (fun g => WriteOp.reset g.id 86400000) ∧
    (checkAndResetGoals 86400000
        (checkAndResetGoals 86400000
          [⟨1, "m", some "receita", some "daily", 100, some (.fin 50), 0⟩,
           ⟨2, "n", some "receita", none, 100, some (.fin 50), 0⟩]).1).2 =
      [] :=
  claim_C7 86400000
    [⟨1, "m", some "receita", some "daily", 100, some (.fin 50), 0⟩,
     ⟨2, "n", some "receita", none, 100, some (.fin 50), 0⟩]
    (by decide)

/-- If the first pending write rejects, the fallible write sequence raises
immediately with the store and the log as they stand. -/
theorem runWritesE_error (fails : WriteOp → Bool) (w : WriteOp)
    (ws : List WriteOp) (st : List Goal) (log : List WriteOp)
    (hw : fails w = true) :
    runWritesE fails (w :: ws) st log = .error (st, log) := by
  rw [runWritesE, if_pos hw]

/-- If some snapshot goal has a nonempty write list all of whose writes
reject, the fallible loop raises. -/
theorem runLoopE_error (act : Goal → List WriteOp) (fails : WriteOp → Bool) :
    ∀ (snapshot st : List Goal) (log : List WriteOp) (g : Goal),
      g ∈ snapshot → act g ≠ [] → (∀ w ∈ act g, fails w = true) →
      ∃ r, runLoopE act fails snapshot st log = .error r := by
  intro snapshot
  induction snapshot with
  | nil =>
    intro st log g hg
    cases hg
  | cons h rest ih =>
    intro st log g hg hne hf
    rw [runLoopE]
    rcases List.mem_cons.mp hg with rfl | hgr
    · rcases hact : act g with _ | ⟨w, ws⟩
      · exact absurd hact hne
      · rw [runWritesE_error fails w ws st log
          (hf w (by rw [hact]; exact List.mem_cons_self w ws))]
        exact ⟨(st, log), rfl⟩
    · rcases hres : runWritesE fails (act h) st log with r | p
      · exact ⟨r, rfl⟩
      · rcases p with ⟨st1, log1⟩
        exact ih st1 log1 g hgr hne hf

/-- A matching goal always has at least one pending write (the accrual
write). -/
theorem accrualWrites_ne_nil {now : Int} {a : JNum} {target : String}
    {g : Goal} (hm : matchesCat g target = true) :
    accrualWrites now a target g ≠ [] := by
  rw [accrualWrites, if_neg (by simp [hm])]
  by_cases hr : checkGoalNeedsReset g now <;> simp [hr]

/-- Counterexample to claim C6 as stated: two matching goals, the writes
against the first reject; the call raises with the log empty and the second
matching goal unprocessed and unchanged — there is no report-and-continue. -/
theorem claim_C6_counterexample :
    updateGoalsProgressE 0 (.num (.fin 20)) (.str "receita")
        (fun w => w.gid == 1)
        [⟨1, "a", some "receita", none, 100, some (.fin 10), 0⟩,
         ⟨2, "b", some "receita", none, 100, some (.fin 10), 0⟩] =
      .error ([⟨1, "a", some "receita", none, 100, some (.fin 10), 0⟩,
               ⟨2, "b", some "receita", none, 100, some (.fin 10), 0⟩],
        []) := by
  rfl

/-- Claim C6 as amended: with valid inputs, if every write against some
matching goal document rejects, the call raises — the exception propagates
out of the loop, the remaining matching goals are not processed — instead
of reporting the failure and continuing. -/
theorem claim_C6_amended (now q : Int) (c : String) (fails : WriteOp → Bool)
    (store : List Goal) (g : Goal) (hq : 0 < q) (hc : c ≠ "")
    (hg : g ∈ store) (hmatch : matchesCat g (normalizeCat c) = true)
    (hfails : ∀ w, w.gid = g.id → fails w = true) :
    ∃ r, updateGoalsProgressE now (.num (.fin q)) (.str c) fails store =
      .error r := by
  rw [updateGoalsProgressE, if_neg (by simp [validCategory_str hc]),
    if_neg (by simp [validAmount_fin hq])]
  exact runLoopE_error _ fails store store [] g hg
    (accrualWrites_ne_nil hmatch)
    (fun w hw => hfails w (accrualWrites_gid now _ _ g w hw))

/-- Witness for amended claim C6: the environment rejecting every write
against goal 1 makes the call raise. -/
theorem claim_C6_witness :
    ∃ r, updateGoalsProgressE 0 (.num (.fin 20)) (.str "receita")
        (fun w => w.gid == 1)
        [⟨1, "a", some "receita", none, 100, some (.fin 10), 0⟩,
         ⟨2, "b", some "receita", none, 100, some (.fin 10), 0⟩] =
      .error r :=
  claim_C6_amended 0 20 "receita" (fun w => w.gid == 1)
    [⟨1, "a", some "receita", none, 100, some (.fin 10), 0⟩,
     ⟨2, "b", some "receita", none, 100, some (.fin 10), 0⟩]
    ⟨1, "a", some "receita", none, 100, some (.fin 10), 0⟩
    (by decide) (by decide) (by decide) (by decide)
    (fun w hw => by simp [hw])

/-- The `|| 0` defaulting of an invariant-satisfying `current` is
nonnegative. -/
theorem orZero_nonneg {g : Goal} (h : currentNonneg g) :
    JNum.nonneg (orZero g.current) := by
  rcases hc : g.current with _ | v
  · exact le_refl 0
  · have hv := h v hc
    cases v
    · exact hv
    · exact hv.elim
    · trivial
    · exact hv.elim

/-- JS addition of two invariant-satisfying numbers is again one. -/
theorem add_nonneg_jnum {x y : JNum} (hx : JNum.nonneg x)
    (hy : JNum.nonneg y) : JNum.nonneg (x.add y) := by
  cases x <;> cases y <;> simp_all [JNum.add, JNum.nonneg]
  omega

/-- Every amount accepted by the validation is a nonnegative number. -/
theorem validAmount_nonneg {a : JSVal} (h : validAmount a = true) :
    JNum.nonneg (amountNum a) := by
  cases a with
  | num n =>
    cases n with
    | fin q =>
      simp only [validAmount, decide_eq_true_eq] at h
      exact le_of_lt h
    | nan => simp [validAmount] at h
    | inf => trivial
    | ninf => simp [validAmount] at h
  | str s => simp [validAmount] at h
  | undef => simp [validAmount] at h

/-- The accrual loop body emits only invariant-compatible writes on an
invariant-satisfying snapshot goal. -/
theorem accrualWrites_opOK {now : Int} {a : JNum} {target : String}
    {g : Goal} (hg : currentNonneg g) (ha : JNum.nonneg a) :
    ∀ w ∈ accrualWrites now a target g, opOK now w := by
  intro w hw
  rw [accrualWrites] at hw
  split at hw
  · cases hw
  · rcases List.mem_append.mp hw with h | h
    · split at h
      · rcases List.mem_singleton.mp h with rfl
        rfl
      · cases h
    · rcases List.mem_singleton.mp h with rfl
      show JNum.nonneg _
      apply add_nonneg_jnum _ ha
      split
      · exact le_refl 0
      · exact orZero_nonneg hg

/-- The sweep loop body emits only invariant-compatible writes. -/
theorem sweepWrites_opOK {now : Int} {g : Goal} :
    ∀ w ∈ sweepWrites now g, opOK now w := by
  intro w hw
  rw [sweepWrites] at hw
  split at hw
  · rcases List.mem_singleton.mp hw with rfl
    rfl
  · cases hw

/-- An invariant-compatible write leaves the written document with a
nonnegative `current`. -/
theorem writeFields_nonneg {now : Int} {w : WriteOp} {e : Goal}
    (hop : opOK now w) : currentNonneg (writeFields w e) := by
  cases w with
  | reset gid t =>
    intro v hv
    injection hv with hv
    rw [← hv]
    exact le_refl 0
  | setCurrent gid v0 =>
    intro v hv
    injection hv with hv
    rw [← hv]
    exact hop

/-- An invariant-compatible write never decreases `lastReset` and never
moves it past the call instant. -/
theorem writeFields_lastReset {now : Int} {w : WriteOp} {e : Goal}
    (hop : opOK now w) (he : e.lastReset ≤ now) :
    e.lastReset ≤ (writeFields w e).lastReset ∧
      (writeFields w e).lastReset ≤ now := by
  cases w with
  | reset gid t =>
    have ht : t = now := hop
    exact ⟨by rw [show (writeFields (WriteOp.reset gid t) e).lastReset = t
        from rfl, ht]; exact he, by rw [show (writeFields
        (WriteOp.reset gid t) e).lastReset = t from rfl, ht]⟩
  | setCurrent gid v => exact ⟨le_refl _, he⟩

/-- One invariant-compatible write preserves the claim C9 invariants. -/
theorem applyOp_preserve {now : Int} {store0 st : List Goal} {w : WriteOp}
    (hop : opOK now w) (hinv : storeInv st) (hclock : clockLe st now)
    (hmono : lastResetMono store0 st) :
    storeInv (applyOp st w) ∧ clockLe (applyOp st w) now ∧
      lastResetMono store0 (applyOp st w) := by
  refine ⟨?_, ?_, ?_⟩
  · intro g hg
    rw [applyOp, List.mem_map] at hg
    rcases hg with ⟨e, he, rfl⟩
    split
    · exact writeFields_nonneg hop
    · exact hinv e he
  · intro g hg
    rw [applyOp, List.mem_map] at hg
    rcases hg with ⟨e, he, rfl⟩
    split
    · exact (writeFields_lastReset hop (hclock e he)).2
    · exact hclock e he
  · intro i g g' hg hg'
    rw [applyOp, List.getElem?_map] at hg'
    rcases hst : st[i]? with _ | e
    · rw [hst] at hg'
      cases hg'
    · rw [hst] at hg'
      injection hg' with hg'
      have h0 := hmono i g e hg hst
      rw [← hg']
      show g.lastReset ≤ (if e.id = w.gid then writeFields w e else e).lastReset
      split
      · exact le_trans h0 (writeFields_lastReset hop
          (hclock e (List.getElem?_mem hst))).1
      · exact h0

/-- A sequence of invariant-compatible writes preserves the claim C9
invariants. -/
theorem applyOps_preserve {now : Int} {store0 : List Goal} :
    ∀ (ws : List WriteOp) (st : List Goal),
      (∀ w ∈ ws, opOK now w) → storeInv st → clockLe st now →
      lastResetMono store0 st →
      storeInv (applyOps st ws) ∧ clockLe (applyOps st ws) now ∧
        lastResetMono store0 (applyOps st ws) := by
  intro ws
  induction ws with
  | nil =>
    intro st _ h1 h2 h3
    exact ⟨h1, h2, h3⟩
  | cons w ws ih =>
    intro st hops h1 h2 h3
    have step := applyOp_preserve (hops w (List.mem_cons_self w ws)) h1 h2 h3
    exact ih (applyOp st w)
      (fun w' hw' => hops w' (List.mem_cons_of_mem _ hw'))
      step.1 step.2.1 step.2.2

/-- The engine for-loop preserves the claim C9 invariants whenever every
loop body write is invariant-compatible. -/
theorem runLoop_preserve {now : Int} {store0 : List Goal}
    (act : Goal → List WriteOp) :
    ∀ (snapshot st : List Goal) (log : List WriteOp),
      (∀ g ∈ snapshot, ∀ w ∈ act g, opOK now w) →
      storeInv st → clockLe st now → lastResetMono store0 st →
      storeInv (runLoop act snapshot st log).1 ∧
        clockLe (runLoop act snapshot st log).1 now ∧
        lastResetMono store0 (runLoop act snapshot st log).1 := by
  intro snapshot
  induction snapshot with
  | nil =>
    intro st log _ h1 h2 h3
    exact ⟨h1, h2, h3⟩
  | cons g rest ih =>
    intro st log hops h1 h2 h3
    have step := applyOps_preserve (act g) st
      (hops g (List.mem_cons_self g rest)) h1 h2 h3
    exact ih _ _ (fun g' hg' => hops g' (List.mem_cons_of_mem _ hg'))
      step.1 step.2.1 step.2.2

/-- Claim C9: every engine operation — goal creation, accrual, explicit
reset, and sweep — preserves the invariant that every present `current` is
nonnegative, and never decreases any stored `lastReset`, for any call
instant not earlier than the stored reset instants (a monotone client
clock). -/
theorem claim_C9 (now : Int) (gid : Nat) (g0 : Goal)
    (amount category : JSVal) (store : List Goal)
    (hinv : storeInv store) (hclock : clockLe store now) :
    (storeInv (addGoal now gid g0 store) ∧
        lastResetMono store (addGoal now gid g0 store)) ∧
      (storeInv (updateGoalsProgress now amount category store).1 ∧
        lastResetMono store
          (updateGoalsProgress now amount category store).1) ∧
      (storeInv (resetGoal now gid store) ∧
        lastResetMono store (resetGoal now gid store)) ∧
      (storeInv (checkAndResetGoals now store).1 ∧
        lastResetMono store (checkAndResetGoals now store).1) := by
  have hrefl : lastResetMono store store := by
    intro i g g' h h'
    rw [h] at h'
    injection h' with h'
    rw [h']
  refine ⟨⟨?_, ?_⟩, ?_, ?_, ?_⟩
  · intro g hg
    rcases List.mem_append.mp hg with h | h
    · exact hinv g h
    · rcases List.mem_singleton.mp h with rfl
      intro v hv
      injection hv with hv
      rw [← hv]
      exact le_refl 0
  · intro i g g' hg hg'
    have hlt : i < store.length := by
      by_contra hh
      rw [List.getElem?_eq_none (Nat.le_of_not_lt hh)] at hg
      cases hg
    rw [addGoal, List.getElem?_append_left hlt, hg] at hg'
    injection hg' with hg'
    rw [hg']
  · by_cases hvc : validCategory category = true
    · by_cases hva : validAmount amount = true
      · rw [updateGoalsProgress, if_neg (by simp [hvc]),
          if_neg (by simp [hva])]
        have hres := runLoop_preserve
          (accrualWrites now (amountNum amount)
            (normalizeCat (categoryStr category)))
          store store []
          (fun g hg => accrualWrites_opOK (hinv g hg)
            (validAmount_nonneg hva))
          hinv hclock hrefl
        exact ⟨hres.1, hres.2.2⟩
      · rw [updateGoalsProgress, if_neg (by simp [hvc]), if_pos hva]
        exact ⟨hinv, hrefl⟩
    · rw [updateGoalsProgress, if_pos hvc]
      exact ⟨hinv, hrefl⟩
  · have step := applyOp_preserve (w := WriteOp.reset gid now) rfl
      hinv hclock hrefl
    exact ⟨step.1, step.2.2⟩
  · have hres := runLoop_preserve (sweepWrites now) store store []
      (fun g _ => sweepWrites_opOK) hinv hclock hrefl
    exact ⟨hres.1, hres.2.2⟩

/-- Witness for claim C9: a concrete store satisfying the invariants is
preserved by all four operations at a later call instant. -/
theorem claim_C9_witness :
    (storeInv (addGoal 100 7 ⟨0, "x", some "corridas", some "daily", 10,
          none, 0⟩
        [⟨1, "m", some "receita", some "daily", 100, some (.fin 50), 40⟩]) ∧
      lastResetMono
        [⟨1, "m", some "receita", some "daily", 100, some (.fin 50), 40⟩]
        (addGoal 100 7 ⟨0, "x", some "corridas", some "daily", 10, none, 0⟩
          [⟨1, "m", some "receita", some "daily", 100, some (.fin 50),
            40⟩])) ∧
    (storeInv (updateGoalsProgress 100 (.num (.fin 5)) (.str "receita")
        [⟨1, "m", some "receita", some "daily", 100, some (.fin 50),
          40⟩]).1 ∧
      lastResetMono
        [⟨1, "m", some "receita", some "daily", 100, some (.fin 50), 40⟩]
        (updateGoalsProgress 100 (.num (.fin 5)) (.str "receita")
          [⟨1, "m", some "receita", some "daily", 100, some (.fin 50),
            40⟩]).1) ∧
    (storeInv (resetGoal 100 7
        [⟨1, "m", some "receita", some "daily", 100, some (.fin 50), 40⟩]) ∧
      lastResetMono
        [⟨1, "m", some "receita", some "daily", 100, some (.fin 50), 40⟩]
        (resetGoal 100 7
          [⟨1, "m", some "receita", some "daily", 100, some (.fin 50),
            40⟩])) ∧
    (storeInv (checkAndResetGoals 100
        [⟨1, "m", some "receita", some "daily", 100, some (.fin 50),
          40⟩]).1 ∧
      lastResetMono
        [⟨1, "m", some "receita", some "daily", 100, some (.fin 50), 40⟩]
        (checkAndResetGoals 100
          [⟨1, "m", some "receita", some "daily", 100, some (.fin 50),
            40⟩]).1) :=
  claim_C9 100 7 ⟨0, "x", some "corridas", some "daily", 10, none, 0⟩
    (.num (.fin 5)) (.str "receita")
    [⟨1, "m", some "receita", some "daily", 100, some (.fin 50), 40⟩]
    (by
      intro g hg
      rw [List.mem_singleton] at hg
      subst hg
      intro v hv
      injection hv with hv
      rw [← hv]
      show (0 : Int) ≤ 50
      decide)
    (by
      intro g hg
      rw [List.mem_singleton] at hg
      subst hg
      show (40 : Int) ≤ 100
      decide)
